import Mathlib

/-!
Verification of the TCA dictionary cleaning/validation/sorting scripts
(`tca_dictionary_clean_validate_sort.py`, `tca_dictionary_sort.py`,
`tca_dictionary_validate.py`).

Embedding conventions:
* A worksheet cell is embedded as the `String` rendering of its Python value
  (`str(v)`); an empty cell (Python `None`) is embedded as `""`.  Every cell
  access in the embedded slices is guarded by `_s` / blank checks in the
  Python source, for which this identification is exact.
* Python string predicates (`str.strip`, `str.isdigit`, `str.upper`) are
  modelled on their ASCII fragment (the source's own data is ASCII); each use
  site is modelled with the same predicate, so cross-definition claims are
  insensitive to this restriction.
* `float(s)` followed by `int(...)` is modelled exactly on the value level:
  a finite parsed literal is kept as an exact pair (mantissa, decimal
  exponent) rather than an IEEE-754 double; literals at or above the
  round-to-infinity boundary of binary64 (`2^1024 - 2^970`) become infinity,
  as in CPython.  Truncation of a finite value toward zero is exact.
-/

set_option maxRecDepth 16384

/-- Model of the Python helper `_s` (and of `str(v).strip()` on cells):
trims surrounding whitespace; the empty cell is already `""`. -/
def pyStrip (s : String) : String :=
  ⟨((s.data.dropWhile Char.isWhitespace).reverse.dropWhile Char.isWhitespace).reverse⟩

/-- Model of `_digits_only` from `tca_dictionary_clean_validate_sort.py`:
keep only the characters `ch` with `ch.isdigit()`. -/
def digitsOnly (s : String) : String :=
  ⟨s.data.filter Char.isDigit⟩

/-- Model of Python `str.isdigit()`: non-empty and every character a digit. -/
def pyIsDigitStr (s : String) : Bool :=
  !s.data.isEmpty && s.data.all Char.isDigit

/-- Model of Python `str.upper()` on one character (ASCII fragment). -/
def pyUpperChar (c : Char) : Char :=
  if 'a' ≤ c ∧ c ≤ 'z' then Char.ofNat (c.toNat - 32) else c

/-- Model of Python `str.upper()`. -/
def pyUpper (s : String) : String :=
  ⟨s.data.map pyUpperChar⟩

/-- Result of Python `float(s)` on a trimmed non-empty string: a finite value
`±mantissa·10^exp10` kept exactly, an infinity, or a NaN. -/
inductive PyFloat where
  | fin (neg : Bool) (mantissa : Nat) (exp10 : Int)
  | inf (neg : Bool)
  | nan
deriving DecidableEq

/-- The Python exceptions relevant to `int(float(s))`. -/
inductive PyExc where
  | valueError
  | overflowError
deriving DecidableEq

/-- Scanner for a CPython `digitpart` (`digit (["_"] digit)*`), given the
accumulated value `acc` of `n` digits already read.  Returns the value, the
number of digits, and the unconsumed remainder.  An underscore is consumed
only when it sits between two digits, exactly as in CPython's float parser. -/
def digPartAux (acc n : Nat) : List Char → Nat × Nat × List Char
  | [] => (acc, n, [])
  | [c] =>
    if c.isDigit then (acc * 10 + (c.toNat - 48), n + 1, []) else (acc, n, [c])
  | c :: d :: cs =>
    if c.isDigit then digPartAux (acc * 10 + (c.toNat - 48)) (n + 1) (d :: cs)
    else if c = '_' then
      (if d.isDigit then digPartAux (acc * 10 + (d.toNat - 48)) (n + 1) cs
       else (acc, n, c :: d :: cs))
    else (acc, n, c :: d :: cs)

/-- Parse a CPython `digitpart`; fails unless the input starts with a digit. -/
def parseDigitPart (cs : List Char) : Option (Nat × Nat × List Char) :=
  match cs with
  | c :: rest => if c.isDigit then some (digPartAux (c.toNat - 48) 1 rest) else none
  | [] => none

/-- Parse the optional exponent suffix of a CPython float literal, requiring
the whole remainder to be consumed; an empty remainder means exponent `0`. -/
def parseExpPart (cs : List Char) : Option Int :=
  match cs with
  | [] => some 0
  | c :: rest =>
    if c = 'e' ∨ c = 'E' then
      let signed : Int × List Char :=
        match rest with
        | '+' :: r => (1, r)
        | '-' :: r => (-1, r)
        | r => (1, r)
      match parseDigitPart signed.2 with
      | some (v, _, []) => some (signed.1 * (v : Int))
      | _ => none
    else none

/-- Parse an unsigned CPython float literal body
(`digitpart ["." [digitpart]] [exp]` or `"." digitpart [exp]`), requiring the
whole input to be consumed.  Returns the exact value as (mantissa, exp10). -/
def parseNumber (cs : List Char) : Option (Nat × Int) :=
  match parseDigitPart cs with
  | some (ip, _, rest) =>
    match rest with
    | '.' :: rest2 =>
      match parseDigitPart rest2 with
      | some (fp, fn, rest3) =>
        (parseExpPart rest3).map (fun e => (ip * 10 ^ fn + fp, e - (fn : Int)))
      | none => (parseExpPart rest2).map (fun e => (ip, e))
    | _ => (parseExpPart rest).map (fun e => (ip, e))
  | none =>
    match cs with
    | '.' :: rest2 =>
      match parseDigitPart rest2 with
      | some (fp, fn, rest3) =>
        (parseExpPart rest3).map (fun e => (fp, e - (fn : Int)))
      | none => none
    | _ => none

/-- Smallest positive real that CPython's float conversion rounds to
infinity (the round-to-nearest-even boundary above the largest binary64). -/
def pyOverflowThreshold : Nat := 2 ^ 1024 - 2 ^ 970

/-- Does the exact value `m·10^e` round to binary64 infinity? -/
def pyFinOverflows (m : Nat) (e : Int) : Bool :=
  if 0 ≤ e then decide (pyOverflowThreshold ≤ m * 10 ^ e.toNat)
  else decide (pyOverflowThreshold * 10 ^ (-e).toNat ≤ m)

/-- Model of CPython `float(s)` for a pre-stripped string: optional sign,
then `inf`/`infinity`/`nan` (case-insensitive) or a decimal literal.
`none` models a `ValueError`. -/
def pyParseFloat (s : String) : Option PyFloat :=
  let signed : Bool × List Char :=
    match s.data with
    | '+' :: r => (false, r)
    | '-' :: r => (true, r)
    | r => (false, r)
  let low := signed.2.map Char.toLower
  if low = ['i', 'n', 'f'] ∨ low = ['i', 'n', 'f', 'i', 'n', 'i', 't', 'y'] then
    some (.inf signed.1)
  else if low = ['n', 'a', 'n'] then
    some .nan
  else
    match parseNumber signed.2 with
    | some (m, e) =>
      if pyFinOverflows m e then some (.inf signed.1) else some (.fin signed.1 m e)
    | none => none

/-- Model of Python `int(x)` on a finite float value: truncation toward zero
(exact, since the value is carried exactly). -/
def pyTruncOfFin (neg : Bool) (m : Nat) (e : Int) : Int :=
  let mag : Nat := if 0 ≤ e then m * 10 ^ e.toNat else m / 10 ^ (-e).toNat
  if neg then -(mag : Int) else (mag : Int)

/-- Model of `_to_int_or_default` from both scripts, with the exception
behaviour made explicit: `float(s)` failing to parse raises `ValueError`
(caught, giving the default); `int(nan)` raises `ValueError` (caught);
`int(±inf)` raises `OverflowError`, which the source's `except ValueError`
does **not** catch, so the call raises. -/
def toIntOrDefaultExc (v : String) (default : Int) : Except PyExc Int :=
  let s := pyStrip v
  if s = "" then .ok default
  else
    match pyParseFloat s with
    | none => .ok default
    | some .nan => .ok default
    | some (.inf _) => .error .overflowError
    | some (.fin neg m e) => .ok (pyTruncOfFin neg m e)

/-- Total projection of `toIntOrDefaultExc`, used by the sort-key model; it
agrees with the Python function wherever the latter returns (the Python
function instead raises `OverflowError` on strings parsing to ±infinity). -/
def toIntOrDefault (v : String) (default : Int) : Int :=
  match toIntOrDefaultExc v default with
  | .ok n => n
  | .error _ => default

/-- Model of `_norm_section_for_logic` from
`tca_dictionary_clean_validate_sort.py` (the sort-only script inlines the
same computation): trim; empty stays empty; an all-digit string is returned
unchanged; otherwise every non-digit character is removed. -/
def normSectionForLogic (sectionRaw : String) : String :=
  let s := pyStrip sectionRaw
  if s = "" then ""
  else if pyIsDigitStr s then s
  else digitsOnly s

/-- Model of `_level` from `tca_dictionary_clean_validate_sort.py`:
called on already-trimmed Chapter/Part and normalized Section strings. -/
def levelFn (chapter part sect : String) : Nat :=
  let has_ch := chapter ≠ ""
  let has_pt := part ≠ ""
  let has_sc := sect ≠ ""
  if ¬has_ch ∧ ¬has_pt ∧ ¬has_sc then 0
  else if has_ch ∧ ¬has_pt ∧ ¬has_sc then 1
  else if has_ch ∧ has_pt ∧ ¬has_sc then 2
  else 3

/-- Model of `_get_level` from `tca_dictionary_sort.py`: identical truth
table, but the arguments are stripped inside the function. -/
def getLevel (chapter part sect : String) : Nat :=
  let has_ch := pyStrip chapter ≠ ""
  let has_pt := pyStrip part ≠ ""
  let has_sc := pyStrip sect ≠ ""
  if ¬has_ch ∧ ¬has_pt ∧ ¬has_sc then 0
  else if has_ch ∧ ¬has_pt ∧ ¬has_sc then 1
  else if has_ch ∧ has_pt ∧ ¬has_sc then 2
  else 3

/-- Rendering of the level table exactly as claimed after amendment: a
function of the three presence flags only.  With Chapter absent but Part
present (and Section absent), the source's final `return 3` applies. -/
def levelOfPresence (hasCh hasPt hasSec : Bool) : Nat :=
  if hasSec then 3
  else if hasPt then (if hasCh then 2 else 3)
  else if hasCh then 1
  else 0

/-- A data row, as the cells of the logical columns resolved by the header
map.  Cells hold the string rendering of the sheet value (`""` for `None`).
`key` and `status` are the optional columns. -/
structure Row where
  jurisdiction : String := ""
  title : String := ""
  chapter : String := ""
  part : String := ""
  sect : String := ""
  value : String := ""
  key : String := ""
  status : String := ""
deriving DecidableEq

/-- Model of the `SortKey` dataclass of
`tca_dictionary_clean_validate_sort.py`. -/
structure SortKey where
  title_i : Int
  chapter_i : Int
  part_i : Int
  level : Nat
  section_i : Int
deriving DecidableEq

/-- Model of `_make_sort_key`. -/
def makeSortKey (r : Row) : SortKey :=
  let ch_s := pyStrip r.chapter
  let pt_s := pyStrip r.part
  let sec_s := normSectionForLogic r.sect
  { title_i := toIntOrDefault r.title (10 ^ 9)
    chapter_i := toIntOrDefault ch_s (10 ^ 9)
    part_i := toIntOrDefault pt_s (10 ^ 9)
    level := levelFn ch_s pt_s sec_s
    section_i := toIntOrDefault sec_s (10 ^ 9) }

/-- The comparison tuple used by `process_workbook`'s `decorated.sort`:
the five sort-key components followed by the original row index, compared
lexicographically (Python tuple order). -/
def toLexKey (x : Nat × Row) : Int ×ₗ Int ×ₗ Int ×ₗ Nat ×ₗ Int ×ₗ Nat :=
  let k := makeSortKey x.2
  toLex (k.title_i, toLex (k.chapter_i, toLex (k.part_i,
    toLex (k.level, toLex (k.section_i, x.1)))))

/-- The row ordering of the decorated sort. -/
def rowLe (a b : Nat × Row) : Prop := toLexKey a ≤ toLexKey b

instance : DecidableRel rowLe :=
  fun a b => inferInstanceAs (Decidable (toLexKey a ≤ toLexKey b))

/-- Model of the sort stage of `process_workbook` (and of
`sort_dictionary_sheet`), on index-decorated rows: Python's stable
`list.sort` keyed by the 6-tuple `(title, chapter, part, level, section,
original index)` returns the unique permutation sorted by that strict total
order, here computed by insertion sort over the same total order. -/
def sortRowsDec (rows : List Row) : List (Nat × Row) :=
  List.insertionSort rowLe rows.enum

/-- The sorted row list written back by the sort stage. -/
def sortRows (rows : List Row) : List Row :=
  (sortRowsDec rows).map Prod.snd

/-- Model of the `RowKey` dataclass (the dedup key). -/
structure RowKey where
  jurisdiction : String
  title : String
  chapter : String
  part : String
  sect : String
  value : String
  status : String
deriving DecidableEq

/-- The dedup key built for a row in `_dedup_rows`; `hasStatus` mirrors the
`has_status = "status" in col` test for sheets without a Status column. -/
def rowKey (hasStatus : Bool) (r : Row) : RowKey :=
  { jurisdiction := pyUpper (pyStrip r.jurisdiction)
    title := pyStrip r.title
    chapter := pyStrip r.chapter
    part := pyStrip r.part
    sect := normSectionForLogic r.sect
    value := pyStrip r.value
    status := if hasStatus then pyStrip r.status else "" }

/-- The loop of `_dedup_rows`: `seen` is the set of keys of rows already
kept; a row whose key is in `seen` is dropped and counted, otherwise it is
kept and its key recorded. -/
def dedupAux (hasStatus : Bool) (seen : List RowKey) : List Row → List Row × Nat
  | [] => ([], 0)
  | r :: rs =>
    if rowKey hasStatus r ∈ seen then
      let p := dedupAux hasStatus seen rs
      (p.1, p.2 + 1)
    else
      let p := dedupAux hasStatus (rowKey hasStatus r :: seen) rs
      (r :: p.1, p.2)

/-- Model of `_dedup_rows`: returns (kept rows, removed count). -/
def dedupRows (hasStatus : Bool) (rows : List Row) : List Row × Nat :=
  dedupAux hasStatus [] rows

/-- Rendering of the dedup contract in the claim's own words: walk the rows
in order and keep a row exactly when its key has not occurred on any earlier
kept row. -/
def dedupSpecKept (hasStatus : Bool) (rows : List Row) : List Row :=
  rows.foldl
    (fun acc r =>
      if rowKey hasStatus r ∈ acc.map (rowKey hasStatus) then acc else acc ++ [r])
    []

/-- The Jurisdiction check of `_validate_rows`
(`tca_dictionary_clean_validate_sort.py`, lines 180-182): an error is
recorded iff the upper-cased trimmed cell is non-empty and differs from
`"TCA"`. -/
def jurisdictionError (cell : String) : Bool :=
  let jur := pyUpper (pyStrip cell)
  jur ≠ "" ∧ jur ≠ "TCA"

/-- The `Section not numeric after normalization` error branch of
`_validate_rows` (lines 197-201): fires iff the normalized section is
non-empty and not all digits. -/
def sectionNotNumericError (sectionRaw : String) : Bool :=
  let sec := normSectionForLogic sectionRaw
  sec ≠ "" ∧ ¬pyIsDigitStr sec

/-- The blank-row skip of `validate_workbook`
(`tca_dictionary_validate.py`, line 106): a row is skipped when the six
cells Jurisdiction/Title/Chapter/Part/Section/Value are all blank — the Key
and Status cells are not consulted. -/
def vwRowBlank (r : Row) : Bool :=
  [r.jurisdiction, r.title, r.chapter, r.part, r.sect, r.value].all
    (fun x => pyStrip x = "")

/-- The Value check of `validate_workbook` (lines 189-190): a processed
(non-skipped) row gets a Value issue iff its Value cell is blank. -/
def vwValueError (r : Row) : Bool :=
  ¬vwRowBlank r ∧ pyStrip r.value = ""

/-- Rendering of the claim's notion of a non-blank row: at least one
populated field, over all eight logical columns. -/
def rowHasPopulatedField (r : Row) : Bool :=
  [r.jurisdiction, r.title, r.chapter, r.part, r.sect, r.value, r.key,
    r.status].any (fun x => pyStrip x ≠ "")

instance : IsTrans (Nat × Row) rowLe :=
  ⟨fun _ _ _ h1 h2 => le_trans h1 h2⟩

instance : IsTotal (Nat × Row) rowLe :=
  ⟨fun a b => le_total (toLexKey a) (toLexKey b)⟩

/-- The four rows of the spec's sorting example, in input order:
Title-only, Chapter-only, Part-only, Section. -/
def csRow0 : Row := { title := "35" }

/-- Chapter-only example row. -/
def csRow1 : Row := { title := "35", chapter := "3" }

/-- Part-only example row. -/
def csRow2 : Row := { title := "35", chapter := "3", part := "1" }

/-- Section example row (no Part). -/
def csRow3 : Row := { title := "35", chapter := "3", sect := "0301" }

/-- Two rows used as a stability witness (identical, hence equal sort keys). -/
def stabRow : Row := { jurisdiction := "TCA", title := "35", chapter := "3" }

/-- Witness rows for dedup: identical after normalization on the seven key
fields (Jurisdiction case, Title whitespace and Section hyphen differ only
superficially), differing in the Key column. -/
def dupRowA : Row :=
  { jurisdiction := "TCA", title := "35", chapter := "3", sect := "0301",
    value := "v", key := "K1" }

/-- Second dedup witness row; same `RowKey`, different Key cell. -/
def dupRowB : Row :=
  { jurisdiction := " tca", title := "35 ", chapter := "3", sect := "03-01",
    value := "v", key := "K2" }

/-- Row populated only in the Key column (used against claim C7). -/
def keyOnlyRow : Row := { key := "K-123" }

/-- Row with a Title but a blank Value (witness for the Value check). -/
def checkedRow : Row := { title := "35" }

/-! ## Sanity checks of the embedding on concrete inputs -/

example : toIntOrDefault "3.0" 5 = 3 := by decide
example : toIntOrDefault "" 7 = 7 := by decide
example : toIntOrDefault "abc" 7 = 7 := by decide
example : toIntOrDefault "0301" 0 = 301 := by decide
example : toIntOrDefaultExc "inf" 0 = .error .overflowError := rfl
example : toIntOrDefaultExc "nan" 9 = .ok 9 := rfl
example : toIntOrDefault "-2.75" 0 = -2 := by decide
example : toIntOrDefault "1_0e1" 0 = 100 := by decide
example : toIntOrDefault "1__0" 7 = 7 := by decide
example : pyStrip "  03-01 " = "03-01" := by decide
example : digitsOnly "03-01" = "0301" := by decide

example : levelFn "" "1" "" = 3 := by decide
example : getLevel "" " 1 " "" = 3 := by decide
example : normSectionForLogic " 03-01 " = "0301" := by decide
example : jurisdictionError " tca " = false := by decide
example : jurisdictionError "US" = true := by decide
example : jurisdictionError "" = false := by decide

/-! ## Helper lemmas -/

theorem pyUpper_eq_empty_iff (s : String) : pyUpper s = "" ↔ s = "" := by
  rw [String.ext_iff, String.ext_iff]
  show s.data.map pyUpperChar = [] ↔ s.data = []
  exact List.map_eq_nil_iff

theorem lexLe_of_eq_fst {α β : Type} [LinearOrder α] [LE β] {x : α} {u v : β}
    (h : toLex (x, u) ≤ toLex (x, v)) : u ≤ v := by
  rcases (Prod.Lex.le_iff (x, u) (x, v)).1 h with h1 | h2
  · exact absurd h1 (lt_irrefl x)
  · exact h2.2

theorem rowLe_index_le {a b : Nat × Row} (hk : makeSortKey a.2 = makeSortKey b.2)
    (h : rowLe a b) : a.1 ≤ b.1 := by
  simp only [rowLe, toLexKey] at h
  rw [hk] at h
  exact lexLe_of_eq_fst (lexLe_of_eq_fst (lexLe_of_eq_fst (lexLe_of_eq_fst
    (lexLe_of_eq_fst h))))

theorem sortRowsDec_sorted (rows : List Row) :
    (sortRowsDec rows).Pairwise rowLe :=
  List.sorted_insertionSort rowLe rows.enum

theorem sortRowsDec_perm (rows : List Row) :
    List.Perm (sortRowsDec rows) rows.enum :=
  List.perm_insertionSort rowLe rows.enum

theorem sortRowsDec_fst_nodup (rows : List Row) :
    (sortRowsDec rows).Pairwise (fun a b => a.1 ≠ b.1) := by
  have h1 : ((rows.enum).map Prod.fst).Nodup := List.nodup_enum_map_fst rows
  have h2 : ((sortRowsDec rows).map Prod.fst).Nodup :=
    (((sortRowsDec_perm rows).map Prod.fst).symm).nodup h1
  exact List.pairwise_map.1 h2

theorem dedupAux_sublist (hs : Bool) :
    ∀ (rows : List Row) (seen : List RowKey),
      List.Sublist (dedupAux hs seen rows).1 rows
  | [], _ => by simp [dedupAux]
  | r :: rs, seen => by
    by_cases h : rowKey hs r ∈ seen
    · simpa [dedupAux, h] using (dedupAux_sublist hs rs seen).cons r
    · simpa [dedupAux, h] using (dedupAux_sublist hs rs (rowKey hs r :: seen)).cons₂ r

theorem dedupAux_count (hs : Bool) :
    ∀ (rows : List Row) (seen : List RowKey),
      (dedupAux hs seen rows).2 + (dedupAux hs seen rows).1.length = rows.length
  | [], _ => by simp [dedupAux]
  | r :: rs, seen => by
    by_cases h : rowKey hs r ∈ seen
    · have := dedupAux_count hs rs seen
      simp [dedupAux, h]
      omega
    · have := dedupAux_count hs rs (rowKey hs r :: seen)
      simp [dedupAux, h]
      omega

theorem dedupAux_cons_mem (hs : Bool) (seen : List RowKey) (r : Row)
    (rs : List Row) (h : rowKey hs r ∈ seen) :
    dedupAux hs seen (r :: rs)
      = ((dedupAux hs seen rs).1, (dedupAux hs seen rs).2 + 1) := by
  simp [dedupAux, h]

theorem dedupAux_cons_not_mem (hs : Bool) (seen : List RowKey) (r : Row)
    (rs : List Row) (h : rowKey hs r ∉ seen) :
    dedupAux hs seen (r :: rs)
      = (r :: (dedupAux hs (rowKey hs r :: seen) rs).1,
          (dedupAux hs (rowKey hs r :: seen) rs).2) := by
  simp [dedupAux, h]

theorem dedupAux_foldl (hs : Bool) :
    ∀ (rows : List Row) (acc : List Row) (seen : List RowKey),
      (∀ k, k ∈ seen ↔ k ∈ acc.map (rowKey hs)) →
      rows.foldl
        (fun acc2 r =>
          if rowKey hs r ∈ acc2.map (rowKey hs) then acc2 else acc2 ++ [r])
        acc
        = acc ++ (dedupAux hs seen rows).1
  | [], acc, seen, _ => by simp [dedupAux]
  | r :: rs, acc, seen, hiff => by
    simp only [List.foldl_cons]
    by_cases h : rowKey hs r ∈ acc.map (rowKey hs)
    · have hseen : rowKey hs r ∈ seen := (hiff _).2 h
      rw [if_pos h, dedupAux_cons_mem hs seen r rs hseen]
      exact dedupAux_foldl hs rs acc seen hiff
    · have hseen : rowKey hs r ∉ seen := fun hc => h ((hiff _).1 hc)
      have hinv : ∀ k, k ∈ rowKey hs r :: seen ↔ k ∈ (acc ++ [r]).map (rowKey hs) := by
        intro k
        rw [List.mem_cons, hiff k, List.map_append, List.mem_append]
        simp only [List.map_cons, List.map_nil, List.mem_singleton]
        tauto
      have ih := dedupAux_foldl hs rs (acc ++ [r]) (rowKey hs r :: seen) hinv
      rw [if_neg h, dedupAux_cons_not_mem hs seen r rs hseen, ih, List.append_assoc]
      rfl

theorem dedupAux_kept_key_not_seen (hs : Bool) :
    ∀ (rows : List Row) (seen : List RowKey) (r : Row),
      r ∈ (dedupAux hs seen rows).1 → rowKey hs r ∉ seen
  | [], _, _ => by simp [dedupAux]
  | r :: rs, seen, x => by
    by_cases h : rowKey hs r ∈ seen
    · simp only [dedupAux, if_pos h]
      exact fun hx => dedupAux_kept_key_not_seen hs rs seen x hx
    · simp only [dedupAux, if_neg h, List.mem_cons]
      rintro (rfl | hx)
      · exact h
      · have := dedupAux_kept_key_not_seen hs rs (rowKey hs r :: seen) x hx
        intro hc
        exact this (List.mem_cons_of_mem _ hc)

theorem dedupAux_kept_keys_nodup (hs : Bool) :
    ∀ (rows : List Row) (seen : List RowKey),
      ((dedupAux hs seen rows).1.map (rowKey hs)).Nodup
  | [], _ => by simp [dedupAux]
  | r :: rs, seen => by
    by_cases h : rowKey hs r ∈ seen
    · simpa [dedupAux, h] using dedupAux_kept_keys_nodup hs rs seen
    · have htail := dedupAux_kept_keys_nodup hs rs (rowKey hs r :: seen)
      have hhead : rowKey hs r ∉
          ((dedupAux hs (rowKey hs r :: seen) rs).1.map (rowKey hs)) := by
        intro hc
        rcases List.mem_map.1 hc with ⟨x, hx, hkx⟩
        exact dedupAux_kept_key_not_seen hs rs _ x hx (hkx ▸ List.mem_cons_self _ _)
      simp [dedupAux, h, List.nodup_cons, hhead, htail]

theorem dedupAux_of_keys_nodup (hs : Bool) :
    ∀ (rows : List Row) (seen : List RowKey),
      ((rows.map (rowKey hs)).Nodup) →
      (∀ r ∈ rows, rowKey hs r ∉ seen) →
      dedupAux hs seen rows = (rows, 0)
  | [], _, _, _ => by simp [dedupAux]
  | r :: rs, seen, hnd, hns => by
    have h : rowKey hs r ∉ seen := hns r (List.mem_cons_self _ _)
    have hnd2 := (List.nodup_cons.1 hnd).2
    have hhead := (List.nodup_cons.1 hnd).1
    have ih := dedupAux_of_keys_nodup hs rs (rowKey hs r :: seen) hnd2
      (by
        intro x hx
        simp only [List.mem_cons]
        rintro (hc | hc)
        · exact hhead (hc ▸ List.mem_map_of_mem (rowKey hs) hx)
        · exact hns x (List.mem_cons_of_mem _ hx) hc)
    simp [dedupAux, h, ih]

/-! ## Claims -/

/-- Claim C1 (code bug): on the spec's four example rows
(Title-only, Chapter-only, Part-only, Section) the sort is required to
return the input order unchanged; the code instead returns
[Part-only, Chapter-only, Section, Title-only], because the `10^9` sentinel
makes an absent Chapter/Part sort after every present one before the level
is even compared. -/
theorem sort_spec_example_output :
    sortRows [csRow0, csRow1, csRow2, csRow3] = [csRow2, csRow1, csRow3, csRow0] := by
  decide

/-- Claim C2, counterexample: with Part present but Chapter and Section
absent, both classifiers return level 3, not the claimed 2. -/
theorem level_part_without_chapter :
    levelFn "" "1" "" = 3 ∧ levelFn "" "1" "" ≠ 2 ∧ getLevel "" "1" "" = 3 := by
  decide

/-- Claim C2 (amended): the classifier is a total function of exactly the
presence flags of Chapter/Part/Section (never of Title); all absent gives 0,
Chapter only gives 1, Chapter and Part without Section gives 2, Section
present gives 3, and Part present without Chapter and Section falls through
to 3 (not 2). -/
theorem level_truth_table (chapter part sect : String) :
    levelFn chapter part sect
        = levelOfPresence (decide (chapter ≠ "")) (decide (part ≠ ""))
            (decide (sect ≠ "")) ∧
    getLevel chapter part sect
        = levelOfPresence (decide (pyStrip chapter ≠ ""))
            (decide (pyStrip part ≠ "")) (decide (pyStrip sect ≠ "")) := by
  constructor
  · rcases eq_or_ne chapter "" with h1 | h1 <;>
      rcases eq_or_ne part "" with h2 | h2 <;>
      rcases eq_or_ne sect "" with h3 | h3 <;>
      simp [levelFn, levelOfPresence, h1, h2, h3]
  · rcases eq_or_ne (pyStrip chapter) "" with h1 | h1 <;>
      rcases eq_or_ne (pyStrip part) "" with h2 | h2 <;>
      rcases eq_or_ne (pyStrip sect) "" with h3 | h3 <;>
      simp [getLevel, levelOfPresence, h1, h2, h3]

/-- Claim C3: the sort is stable — whenever two decorated entries appear in
this order in the sorted output and their five-component sort keys agree,
the first carries the smaller original input index. -/
theorem sort_stable_equal_keys (rows : List Row) (x y : Nat × Row)
    (hsub : List.Sublist [x, y] (sortRowsDec rows))
    (hkey : makeSortKey x.2 = makeSortKey y.2) : x.1 < y.1 := by
  have hp : (sortRowsDec rows).Pairwise (fun a b => rowLe a b ∧ a.1 ≠ b.1) :=
    (sortRowsDec_sorted rows).and (sortRowsDec_fst_nodup rows)
  have hxy : rowLe x y ∧ x.1 ≠ y.1 :=
    List.rel_of_pairwise_cons (List.Pairwise.sublist hsub hp)
      (List.mem_cons_self _ _)
  exact Nat.lt_of_le_of_ne (rowLe_index_le hkey hxy.1) hxy.2

/-- Witness for C3 at a concrete input: sorting two identical rows keeps
index 0 before index 1. -/
theorem sort_stable_equal_keys_witness : (0 : Nat) < 1 := by
  have hs : sortRowsDec [stabRow, stabRow] = [(0, stabRow), (1, stabRow)] := by
    decide
  exact sort_stable_equal_keys [stabRow, stabRow] (0, stabRow) (1, stabRow)
    (by rw [hs]) rfl

/-- Claim C4: dedup keeps exactly the rows whose `RowKey` (the seven-tuple
ignoring the Key column) has not occurred on an earlier kept row; the kept
rows are a subsequence of the input, the removed count is the number of
dropped rows, and two rows with equal keys reduce to the first plus one
removal. -/
theorem dedup_characterization (hasStatus : Bool) (rows : List Row) :
    (dedupRows hasStatus rows).1 = dedupSpecKept hasStatus rows
    ∧ List.Sublist (dedupRows hasStatus rows).1 rows
    ∧ (dedupRows hasStatus rows).2 + (dedupRows hasStatus rows).1.length
        = rows.length
    ∧ ∀ r1 r2 : Row, rowKey hasStatus r1 = rowKey hasStatus r2 →
        dedupRows hasStatus [r1, r2] = ([r1], 1) := by
  refine ⟨?_, dedupAux_sublist hasStatus rows [], dedupAux_count hasStatus rows [],
    ?_⟩
  · have h := dedupAux_foldl hasStatus rows [] [] (by simp)
    simpa [dedupSpecKept, dedupRows] using h.symm
  · intro r1 r2 hk
    simp [dedupRows, dedupAux, hk]

/-- Witness for C4 at a concrete input: two rows equal on the seven key
fields after normalization but with different Key cells collapse to the
first row with one removal. -/
theorem dedup_characterization_witness :
    dedupRows true [dupRowA, dupRowB] = ([dupRowA], 1) :=
  (dedup_characterization true [dupRowA, dupRowB]).2.2.2 dupRowA dupRowB
    (by decide)

/-- Claim C5: dedup is idempotent — running it again on the kept rows keeps
them all and removes zero. -/
theorem dedup_idempotent (hasStatus : Bool) (rows : List Row) :
    dedupRows hasStatus (dedupRows hasStatus rows).1
      = ((dedupRows hasStatus rows).1, 0) :=
  dedupAux_of_keys_nodup hasStatus (dedupRows hasStatus rows).1 []
    (dedupAux_kept_keys_nodup hasStatus rows [])
    (by simp)


theorem digitsOnly_all_digits (s : String) :
    (digitsOnly s).data.all Char.isDigit = true := by
  simp only [digitsOnly, List.all_eq_true]
  intro c hc
  exact (List.mem_filter.1 hc).2

theorem normSection_all_digits (raw : String) :
    normSectionForLogic raw ≠ "" → pyIsDigitStr (normSectionForLogic raw) = true := by
  intro hne
  unfold normSectionForLogic at hne ⊢
  by_cases h1 : pyStrip raw = ""
  · simp [h1] at hne
  · by_cases h2 : pyIsDigitStr (pyStrip raw)
    · simp [h1, h2]
    · simp only [h1, if_neg h1, h2, if_neg h2, Bool.false_eq_true, if_false] at hne ⊢
      have hall := digitsOnly_all_digits (pyStrip raw)
      have hempty : (digitsOnly (pyStrip raw)).data.isEmpty = false := by
        rcases hl : (digitsOnly (pyStrip raw)).data with _ | ⟨c, cs⟩
        · exact absurd (String.ext hl) hne
        · rfl
      simp [pyIsDigitStr, hempty, hall]

/-- Claim C6: the combined validator flags a Jurisdiction error exactly when
the trimmed cell is non-empty and, compared case-insensitively (by upper
folding), differs from the literal code `TCA`. -/
theorem jurisdiction_error_iff (cell : String) :
    jurisdictionError cell = true ↔
      (pyStrip cell ≠ "" ∧ pyUpper (pyStrip cell) ≠ pyUpper "TCA") := by
  have hTCA : pyUpper "TCA" = "TCA" := by decide
  simp only [jurisdictionError, decide_eq_true_eq, hTCA]
  constructor
  · rintro ⟨h1, h2⟩
    exact ⟨fun h => h1 ((pyUpper_eq_empty_iff _).2 h), h2⟩
  · rintro ⟨h1, h2⟩
    exact ⟨fun h => h1 ((pyUpper_eq_empty_iff _).1 h), h2⟩

/-- Claim C7, counterexample: a row populated only in the Key column has a
populated field and a blank Value, yet the standalone validator's blank-row
skip (which only consults the six Jurisdiction/Title/Chapter/Part/Section/
Value cells) drops it before the Value check, so no Value error is emitted. -/
theorem value_error_skipped_key_only_row :
    rowHasPopulatedField keyOnlyRow = true ∧ pyStrip keyOnlyRow.value = ""
      ∧ vwValueError keyOnlyRow = false := by
  decide

/-- Claim C7 (amended): for every row with at least one of the six checked
cells populated, the validator emits a Value error exactly when the Value
cell is blank; rows populated only in Key/Status are skipped as blank. -/
theorem value_error_iff_on_checked_rows (r : Row) (h : vwRowBlank r = false) :
    vwValueError r = true ↔ pyStrip r.value = "" := by
  simp [vwValueError, h]

/-- Witness for C7 at a concrete input: a row with a Title and a blank Value
is flagged. -/
theorem value_error_iff_on_checked_rows_witness : vwValueError checkedRow = true :=
  (value_error_iff_on_checked_rows checkedRow (by decide)).mpr (by decide)

/-- Claim C8, counterexample: `_to_int_or_default` is not total — on the
string `inf`, `float` succeeds and `int(inf)` raises `OverflowError`, which
`except ValueError` does not catch. -/
theorem to_int_raises_on_inf :
    toIntOrDefaultExc "inf" 0 = Except.error PyExc.overflowError := rfl

/-- Claim C8 (amended): for every value and default, an empty trimmed
string, a parse failure, or a NaN parse yields the default; a finite parse
yields its truncation toward zero; and the call raises (`OverflowError`)
exactly when the trimmed string parses to ±infinity. -/
theorem to_int_or_default_spec (v : String) (d : Int) :
    (pyStrip v = "" ∨ pyParseFloat (pyStrip v) = none
        ∨ pyParseFloat (pyStrip v) = some PyFloat.nan →
      toIntOrDefaultExc v d = Except.ok d)
    ∧ (∀ neg m e, pyParseFloat (pyStrip v) = some (PyFloat.fin neg m e) →
        toIntOrDefaultExc v d = Except.ok (pyTruncOfFin neg m e))
    ∧ ((∃ err, toIntOrDefaultExc v d = Except.error err)
        ↔ ∃ b, pyParseFloat (pyStrip v) = some (PyFloat.inf b)) := by
  by_cases hs : pyStrip v = ""
  · have hp : pyParseFloat (pyStrip v) = none := by rw [hs]; decide
    refine ⟨fun _ => by simp [toIntOrDefaultExc, hs], ?_, ?_⟩
    · intro neg m e hfin
      rw [hp] at hfin
      exact absurd hfin (by simp)
    · constructor
      · rintro ⟨err, herr⟩
        simp [toIntOrDefaultExc, hs] at herr
      · rintro ⟨b, hb⟩
        rw [hp] at hb
        exact absurd hb (by simp)
  · cases hp : pyParseFloat (pyStrip v) with
    | none =>
      refine ⟨fun _ => by simp [toIntOrDefaultExc, hs, hp], ?_, ?_⟩
      · intro neg m e hfin
        exact absurd hfin (by simp)
      · constructor
        · rintro ⟨err, herr⟩
          simp [toIntOrDefaultExc, hs, hp] at herr
        · rintro ⟨b, hb⟩
          exact absurd hb (by simp)
    | some pf =>
      cases pf with
      | nan =>
        refine ⟨fun _ => by simp [toIntOrDefaultExc, hs, hp], ?_, ?_⟩
        · intro neg m e hfin
          exact absurd hfin (by simp)
        · constructor
          · rintro ⟨err, herr⟩
            simp [toIntOrDefaultExc, hs, hp] at herr
          · rintro ⟨b, hb⟩
            exact absurd hb (by simp)
      | inf b =>
        refine ⟨?_, ?_, ?_⟩
        · rintro (hc | hc | hc)
          · exact absurd hc hs
          · exact absurd hc (by simp)
          · exact absurd hc (by simp)
        · intro neg m e hfin
          exact absurd hfin (by simp)
        · constructor
          · intro _
            exact ⟨b, rfl⟩
          · intro _
            exact ⟨PyExc.overflowError, by simp [toIntOrDefaultExc, hs, hp]⟩
      | fin neg m e =>
        refine ⟨?_, ?_, ?_⟩
        · rintro (hc | hc | hc)
          · exact absurd hc hs
          · exact absurd hc (by simp)
          · exact absurd hc (by simp)
        · intro neg2 m2 e2 hfin
          have h2 := Option.some.inj hfin
          cases h2
          simp [toIntOrDefaultExc, hs, hp]
        · constructor
          · rintro ⟨err, herr⟩
            simp [toIntOrDefaultExc, hs, hp] at herr
          · rintro ⟨b, hb⟩
            exact absurd hb (by simp)

/-- Witness for C8 at a concrete input: `3.0` parses to the finite value
`30·10^(-1)` and truncates to `3`. -/
theorem to_int_or_default_spec_witness :
    toIntOrDefaultExc "3.0" 5 = Except.ok 3 := by
  have h := (to_int_or_default_spec "3.0" 5).2.1 false 30 (-1) (by decide)
  exact h.trans (congrArg Except.ok (by decide))

/-- Claim C9: section normalization returns `""` on a blank trimmed input,
the trimmed input unchanged when it is entirely digits, and otherwise the
trimmed input with every non-digit character removed. -/
theorem norm_section_spec (raw : String) :
    (pyStrip raw = "" → normSectionForLogic raw = "")
    ∧ (pyStrip raw ≠ "" → pyIsDigitStr (pyStrip raw) = true →
        normSectionForLogic raw = pyStrip raw)
    ∧ (pyIsDigitStr (pyStrip raw) = false →
        normSectionForLogic raw = digitsOnly (pyStrip raw)) := by
  refine ⟨fun h => by simp [normSectionForLogic, h],
    fun h1 h2 => by simp [normSectionForLogic, h1, h2],
    fun h3 => ?_⟩
  by_cases h : pyStrip raw = ""
  · rw [normSectionForLogic, if_pos h, h]
    decide
  · simp [normSectionForLogic, h, h3]

/-- Witness for C9 at a concrete input: `" 03-01 "` trims to a non-digit
string and normalizes to its digits `0301`. -/
theorem norm_section_spec_witness : normSectionForLogic " 03-01 " = "0301" := by
  have h := (norm_section_spec " 03-01 ").2.2 (by decide)
  exact h.trans (by decide)

/-- Claim C10: the `Section not numeric after normalization` error branch of
the combined validator is unreachable — the normalized section is by
construction empty or entirely digits. -/
theorem section_not_numeric_unreachable (raw : String) :
    sectionNotNumericError raw = false := by
  by_cases h : normSectionForLogic raw = ""
  · simp [sectionNotNumericError, h]
  · simp [sectionNotNumericError, h, normSection_all_digits raw h]
